import Mathlib

/-
Verification of the decision and risk-control engine of the recall trading
agent against its natural-language specification.

The development shallowly embeds the Python sources in Lean 4:
  * floats are modelled as exact rationals (ℚ); where IEEE special values
    matter (the price-ingestion filter) an explicit PyFloat type with
    nan and infinities is used;
  * stateful classes (RiskManager, RateLimiter, PriceSeries) become
    structures with explicit state-passing step functions;
  * `np.std` is `Real.sqrt` of the population variance; since square roots
    of rationals are irrational in general, the square-root function is
    carried as an explicit oracle parameter `sqrt : ℚ → ℚ` and theorems
    assume its defining property (nonnegative, squares to the argument)
    only at the point where it is applied;
  * Python's human-readable reason strings are reproduced; the numeric
    parts formatted by Python's "{:.1%}" are rendered by a simplified
    percent printer (no claim depends on the digits).
-/

namespace Recall

/-! Source: src/signals/momentum_vol.py and src/data.py — list statistics
used by the signal engine (np.mean, np.std of a trailing slice). -/

/-- Mean of a list of rationals (`np.mean`); the mean of the empty list is
taken to be 0 (that case is outside every theorem's domain). -/
def listMean (xs : List ℚ) : ℚ := xs.sum / xs.length

/-- The trailing slice `arr[-n:]` of numpy: the last `n` entries, the whole
array when `n = 0` (Python's `arr[-0:]` is `arr[0:]`) or when `n` exceeds
the length. -/
def lastN (xs : List ℚ) (n : Nat) : List ℚ :=
  if n = 0 then xs else xs.drop (xs.length - n)

/-- Population variance of a list (`np.std` squared). -/
def listVariance (xs : List ℚ) : ℚ :=
  ((xs.map (fun x => (x - listMean xs) ^ 2)).sum) / xs.length

/-- The defining property of a square root at one point: `s` is the
nonnegative square root of `x`.  Used to constrain the square-root oracle
exactly where `np.std` applies it. -/
def IsSqrtOf (s x : ℚ) : Prop := 0 ≤ s ∧ s ^ 2 = x

/-! Source: src/signals/momentum_vol.py — class MomVolSignal. -/

/-- Configuration of `MomVolSignal.__init__`: short/long lookbacks, the
volatility lookback and the two z thresholds. -/
structure MomVolSignal where
  s : Nat
  l : Nat
  v : Nat
  z_entry : ℚ
  z_exit : ℚ

/-- `MomVolSignal._z`: spread of short over long mean, divided by the
standard deviation (`sqrt` oracle applied to the population variance) of
the last `v` prices; 0 during warm-up or at zero dispersion. -/
def zScore (sig : MomVolSignal) (sqrt : ℚ → ℚ) (arr : List ℚ) : ℚ :=
  if arr.length < max sig.l sig.v then 0
  else
    let m_s := listMean (lastN arr sig.s)
    let m_l := listMean (lastN arr sig.l)
    let spread := m_s - m_l
    let vol := sqrt (listVariance (lastN arr sig.v))
    if vol = 0 then 0 else spread / vol

/-- `MomVolSignal.decide_weight`: the piecewise-linear weight mapping of
the z-score, with the `1e-6` floors on both divisors as in the source. -/
def decide_weight (sig : MomVolSignal) (sqrt : ℚ → ℚ) (arr : List ℚ) : ℚ :=
  let z := zScore sig sqrt arr
  if z ≤ sig.z_exit then 0
  else if sig.z_entry ≤ z then
    min 1 ((z - sig.z_entry) / max sig.z_entry (1 / 1000000) + 1 / 2)
  else
    max 0 ((z - sig.z_exit) / max (sig.z_entry - sig.z_exit) (1 / 1000000) * (3 / 10))

/-- The spec's weight mapping (§4.1 of spec.md, quoted by the claim), with
the divisors exactly as the spec writes them — no `1e-6` floors.  Kept as a
separate definition to compare against `decide_weight`. -/
def spec_weight (sig : MomVolSignal) (z : ℚ) : ℚ :=
  if z ≤ sig.z_exit then 0
  else if sig.z_entry ≤ z then min 1 ((z - sig.z_entry) / sig.z_entry + 1 / 2)
  else max 0 ((z - sig.z_exit) / (sig.z_entry - sig.z_exit) * (3 / 10))

/-- The spec's z-score formula: (short-window mean − long-window mean)
divided by the standard deviation of the last `v` prices. -/
def spec_z (sig : MomVolSignal) (sqrt : ℚ → ℚ) (arr : List ℚ) : ℚ :=
  (listMean (lastN arr sig.s) - listMean (lastN arr sig.l)) /
    sqrt (listVariance (lastN arr sig.v))

/-! Source: src/portfolio/allocator.py — risk_parity_weights. -/

/-- `risk_parity_weights`: inverse volatility floored at `1e-8`, normalised
by the sum (`or 1.0` turns a zero sum into one), then in long-only mode a
clamp of negatives to zero.  The Python dict is modelled as an association
list in insertion order. -/
def risk_parity_weights (vols : List (String × ℚ)) (long_only : Bool) :
    List (String × ℚ) :=
  let inv := vols.map (fun kv => (kv.1, 1 / max kv.2 (1 / 100000000)))
  let s0 := (inv.map Prod.snd).sum
  let s := if s0 = 0 then 1 else s0
  let w := inv.map (fun kv => (kv.1, kv.2 / s))
  if long_only then w.map (fun kv => (kv.1, max 0 kv.2)) else w

end Recall

namespace Recall

/-! Source: src/risk/manager.py — RiskParams, RiskManager. -/

/-- `RiskParams`: the risk configuration record. -/
structure RiskParams where
  min_daily_trades : Nat
  max_daily_trades : Nat
  cooldown_seconds : ℚ
  max_single_trade_pct : ℚ
  per_trade_base_usd : ℚ
  max_drawdown_stop : ℚ
  slippage_tolerance_pct : ℚ
  max_exposure_per_asset_pct : ℚ

/-- The mutable fields of `RiskManager` (RiskState of the spec).  The
wall clock is passed explicitly to every operation. -/
structure RiskState where
  daily_count : Nat
  day_start : Nat
  last_trade_ts : ℚ
  equity_peak : Option ℚ
  stopped : Bool
  daily_trade_times : List ℚ

/-- UTC-day bucket of a wall-clock instant: `int(time.time()) // 86400`.
Wall-clock times are nonnegative, so Python's truncating `int` is a floor
and the quotient is Nat division. -/
def dayOf (now : ℚ) : Nat := (⌊now⌋).toNat / 86400

/-- `RiskManager._reset_if_new_day`: on a day-bucket change, reset the
daily counter and trade-time log and move the day marker.  The Python
warning about too few trades the previous day is log-only and dropped. -/
def reset_if_new_day (st : RiskState) (now : ℚ) : RiskState :=
  if dayOf now ≠ st.day_start then
    { st with day_start := dayOf now, daily_count := 0, daily_trade_times := [] }
  else st

/-- `RiskManager.mark_trade`: increment the daily counter, stamp the last
trade time, log the trade time. -/
def mark_trade (st : RiskState) (now : ℚ) : RiskState :=
  { st with
    daily_count := st.daily_count + 1
    last_trade_ts := now
    daily_trade_times := st.daily_trade_times ++ [now] }

/-- Simplified percent printer standing in for Python's `"{:.1%}"`
formatting (exact digits are irrelevant to every claim). -/
def pctStr (q : ℚ) : String := toString (q * 100) ++ "%"

/-- The drawdown quantity `check_pretrade` computes from the refreshed
peak: 0 when the refreshed peak is nonpositive, otherwise the fractional
decline of equity from the refreshed peak. -/
def ddOf (pk equity : ℚ) : ℚ :=
  let pk2 := max pk equity
  if pk2 ≤ 0 then 0 else (pk2 - equity) / pk2

/-- Reason string of the drawdown-stop branch. -/
def ddMsg (dd stop : ℚ) : String :=
  "Drawdown " ++ pctStr dd ++ " >= stop " ++ pctStr stop

/-- Reason string of the daily-cap branch. -/
def capMsg (n : Nat) : String := "Daily cap " ++ toString n ++ " reached"

/-- Reason string of the cooldown branch. -/
def cooldownMsg (c : ℚ) : String := "Cooldown " ++ toString c ++ "s"

/-- The daily-cap and cooldown checks at the tail of `check_pretrade`. -/
def postPeakChecks (p : RiskParams) (st : RiskState) (now : ℚ) :
    (Bool × String) × RiskState :=
  if p.max_daily_trades ≤ st.daily_count then
    ((false, capMsg p.max_daily_trades), st)
  else if now - st.last_trade_ts < p.cooldown_seconds then
    ((false, cooldownMsg p.cooldown_seconds), st)
  else ((true, "OK"), st)

/-- `RiskManager.check_pretrade`: stop-state first, then lazy day
rollover, then peak refresh and drawdown stop, then daily cap, then
cooldown. -/
def check_pretrade (p : RiskParams) (st : RiskState) (now equity : ℚ) :
    (Bool × String) × RiskState :=
  if st.stopped then ((false, "Drawdown stop active"), st)
  else
    let st1 := reset_if_new_day st now
    match st1.equity_peak with
    | none => postPeakChecks p { st1 with equity_peak := some equity } now
    | some pk =>
        let st2 := { st1 with equity_peak := some (max pk equity) }
        let dd := ddOf pk equity
        if p.max_drawdown_stop ≤ dd then
          ((false, ddMsg dd p.max_drawdown_stop), { st2 with stopped := true })
        else postPeakChecks p st2 now

/-- Reason string of the trade-size rejection. -/
def sizeMsg (pct maxPct : ℚ) : String :=
  "Trade " ++ pctStr pct ++ " > max " ++ pctStr maxPct

/-- `RiskManager.check_trade_size`: reject on nonpositive portfolio value,
else reject a trade exceeding the configured fraction of it. -/
def check_trade_size (p : RiskParams) (trade_usd total_portfolio_usd : ℚ) :
    Bool × String :=
  if total_portfolio_usd ≤ 0 then (false, "Zero portfolio value")
  else if p.max_single_trade_pct < trade_usd / total_portfolio_usd then
    (false, sizeMsg (trade_usd / total_portfolio_usd) p.max_single_trade_pct)
  else (true, "OK")

/-- Reason string of the exposure rejection. -/
def expMsg (pct maxPct : ℚ) : String :=
  "Asset exposure " ++ pctStr pct ++ " > max " ++ pctStr maxPct

/-- `RiskManager.check_asset_exposure`: a nonpositive portfolio value
passes, else reject when the exposure fraction exceeds the ceiling. -/
def check_asset_exposure (p : RiskParams)
    (asset_exposure_usd total_portfolio_usd : ℚ) : Bool × String :=
  if total_portfolio_usd ≤ 0 then (true, "OK")
  else if p.max_exposure_per_asset_pct < asset_exposure_usd / total_portfolio_usd then
    (false, expMsg (asset_exposure_usd / total_portfolio_usd) p.max_exposure_per_asset_pct)
  else (true, "OK")

end Recall

namespace Recall

/-! Theorems for claims C5 and C10. -/

theorem list_sum_map_div (l : List ℚ) (s : ℚ) :
    (l.map (fun x => x / s)).sum = l.sum / s := by
  induction l with
  | nil => simp
  | cons a t ih => simp [ih, add_div]

/-- Claim C5 (confirmed): for every non-empty volatility map with positive
values, `risk_parity_weights` in long-only mode returns exactly the input
keys, every weight is nonnegative, the weights sum to exactly 1 (the model
is exact rational arithmetic), and the long-only clamp changes nothing —
the output equals the non-clamped output. -/
theorem allocator_normalization (vols : List (String × ℚ))
    (hne : vols ≠ []) (hpos : ∀ kv ∈ vols, 0 < kv.2) :
    (risk_parity_weights vols true).map Prod.fst = vols.map Prod.fst ∧
    (∀ kv ∈ risk_parity_weights vols true, 0 ≤ kv.2) ∧
    ((risk_parity_weights vols true).map Prod.snd).sum = 1 ∧
    risk_parity_weights vols true = risk_parity_weights vols false := by
  classical
  have hfloor : ∀ q : ℚ, 0 < max q (1 / 100000000) := by
    intro q
    have : (0 : ℚ) < 1 / 100000000 := by norm_num
    exact lt_of_lt_of_le this (le_max_right _ _)
  -- the inverse-volatility values are positive
  set inv := vols.map (fun kv => (kv.1, 1 / max kv.2 (1 / 100000000))) with hinv
  have hinvpos : ∀ x ∈ inv.map Prod.snd, 0 < x := by
    intro x hx
    simp only [hinv, List.map_map, List.mem_map, Function.comp] at hx
    obtain ⟨kv, _, rfl⟩ := hx
    exact one_div_pos.mpr (hfloor kv.2)
  have hinvne : inv.map Prod.snd ≠ [] := by
    simp only [hinv, List.map_map, ne_eq, List.map_eq_nil_iff]
    exact hne
  have hs0 : 0 < (inv.map Prod.snd).sum := List.sum_pos _ hinvpos hinvne
  have hs0ne : (inv.map Prod.snd).sum ≠ 0 := ne_of_gt hs0
  -- unfold the definition with the nonzero sum
  have hsum_if : (if (inv.map Prod.snd).sum = 0 then (1 : ℚ)
      else (inv.map Prod.snd).sum) = (inv.map Prod.snd).sum := by
    simp [hs0ne]
  set s := (inv.map Prod.snd).sum with hsdef
  set w := inv.map (fun kv => (kv.1, kv.2 / s)) with hw
  have hwpos : ∀ kv ∈ w, 0 < kv.2 := by
    intro kv hkv
    simp only [hw, List.mem_map] at hkv
    obtain ⟨kv0, hkv0, rfl⟩ := hkv
    have : 0 < kv0.2 := by
      have : kv0.2 ∈ inv.map Prod.snd := List.mem_map_of_mem Prod.snd hkv0
      exact hinvpos _ this
    exact div_pos this hs0
  have hclamp : w.map (fun kv => (kv.1, max 0 kv.2)) = w := by
    have : ∀ kv ∈ w, (fun kv : String × ℚ => (kv.1, max 0 kv.2)) kv = id kv := by
      intro kv hkv
      have h0 : 0 ≤ kv.2 := le_of_lt (hwpos kv hkv)
      simp [max_eq_right h0]
    rw [List.map_congr_left this, List.map_id]
  have hrpw : risk_parity_weights vols true = w := by
    simp only [risk_parity_weights, ← hinv, hsum_if, ← hsdef, ← hw]
    exact hclamp
  have hrpwf : risk_parity_weights vols false = w := by
    simp only [risk_parity_weights, ← hinv, hsum_if, ← hsdef, ← hw]
    rfl
  refine ⟨?_, ?_, ?_, ?_⟩
  · rw [hrpw]
    simp [hw, hinv, List.map_map, Function.comp]
  · intro kv hkv
    rw [hrpw] at hkv
    exact le_of_lt (hwpos kv hkv)
  · rw [hrpw]
    have hmaps : w.map Prod.snd = (inv.map Prod.snd).map (fun x => x / s) := by
      simp [hw, List.map_map, Function.comp]
    rw [hmaps, list_sum_map_div, ← hsdef, div_self hs0ne]
  · rw [hrpw, hrpwf]

/-- Witness for C5 at a concrete two-asset map with equal volatilities. -/
theorem allocator_normalization_witness :
    (risk_parity_weights [("BTC", 2), ("ETH", 2)] true).map Prod.fst =
      [("BTC", (2 : ℚ)), ("ETH", 2)].map Prod.fst ∧
    (∀ kv ∈ risk_parity_weights [("BTC", 2), ("ETH", 2)] true, 0 ≤ kv.2) ∧
    ((risk_parity_weights [("BTC", 2), ("ETH", 2)] true).map Prod.snd).sum = 1 ∧
    risk_parity_weights [("BTC", 2), ("ETH", 2)] true =
      risk_parity_weights [("BTC", 2), ("ETH", 2)] false :=
  allocator_normalization [("BTC", 2), ("ETH", 2)] (by decide)
    (by intro kv hkv; fin_cases hkv <;> norm_num)

/-- Claim C10 (confirmed): with nonpositive total portfolio value,
`check_asset_exposure` answers `(true, "OK")` for every exposure while
`check_trade_size` answers `(false, "Zero portfolio value")`; the exposure
ceiling is enforced only when the total is strictly positive. -/
theorem zero_equity_asymmetry (p : RiskParams) (trade_usd expo total : ℚ) :
    (total ≤ 0 →
      check_asset_exposure p expo total = (true, "OK") ∧
      check_trade_size p trade_usd total = (false, "Zero portfolio value")) ∧
    (0 < total →
      check_asset_exposure p expo total =
        (if p.max_exposure_per_asset_pct < expo / total then
          (false, expMsg (expo / total) p.max_exposure_per_asset_pct)
        else (true, "OK"))) := by
  constructor
  · intro h
    constructor
    · simp [check_asset_exposure, h]
    · simp [check_trade_size, h]
  · intro h
    have h' : ¬ total ≤ 0 := not_le.mpr h
    simp [check_asset_exposure, h']

/-- Witness for C10 at total portfolio value 0 (and a strictly positive
instance for the second part). -/
theorem zero_equity_asymmetry_witness :
    (check_asset_exposure ⟨3, 120, 20, 1/4, 100, 18/100, 1, 35/100⟩ 500 0 = (true, "OK") ∧
     check_trade_size ⟨3, 120, 20, 1/4, 100, 18/100, 1, 35/100⟩ 500 0 =
       (false, "Zero portfolio value")) ∧
    check_asset_exposure ⟨3, 120, 20, 1/4, 100, 18/100, 1, 35/100⟩ 10 1000 =
      (if (⟨3, 120, 20, 1/4, 100, 18/100, 1, 35/100⟩ : RiskParams).max_exposure_per_asset_pct
          < (10 : ℚ) / 1000 then
        (false, expMsg ((10 : ℚ) / 1000)
          (⟨3, 120, 20, 1/4, 100, 18/100, 1, 35/100⟩ : RiskParams).max_exposure_per_asset_pct)
      else (true, "OK")) :=
  ⟨(zero_equity_asymmetry ⟨3, 120, 20, 1/4, 100, 18/100, 1, 35/100⟩ 500 500 0).1 (by norm_num),
   (zero_equity_asymmetry ⟨3, 120, 20, 1/4, 100, 18/100, 1, 35/100⟩ 500 10 1000).2 (by norm_num)⟩

end Recall

namespace Recall

/-! Theorems for claims C2 and C6 (signal engine). -/

/-- Claim C2, counterexample: the claim asserts weight 0 for warm-up and
zero-dispersion histories "for any configured z_entry, z_exit", but with a
negative exit threshold (z_exit = −1 < z_entry = −1/2, a configuration the
spec's only stated constraint z_entry > z_exit admits) the empty (warm-up)
history yields z-score 0 and weight 1, not 0. -/
theorem neutral_signal_counterexample :
    zScore ⟨1, 2, 2, -(1/2), -1⟩ (fun _ => 0) [] = 0 ∧
    decide_weight ⟨1, 2, 2, -(1/2), -1⟩ (fun _ => 0) [] = 1 ∧
    ([] : List ℚ).length < max 2 2 ∧
    (-(1/2) : ℚ) > -1 := by
  refine ⟨?_, ?_, by decide, by norm_num⟩
  · simp [zScore]
  · norm_num [decide_weight, zScore]

/-- Claim C2 as amended (the amendment adds `0 ≤ z_exit`, which the
repository's default configuration satisfies): during warm-up (history shorter than
max(long-lookback, vol-lookback)) and at zero dispersion (zero variance of
the last vol-lookback prices) the z-score is 0; and the weight is 0
provided the configured z_exit is nonnegative. -/
theorem neutral_signal_amended (sig : MomVolSignal) (sqrt : ℚ → ℚ)
    (arr : List ℚ) (hsq0 : sqrt 0 = 0)
    (h : arr.length < max sig.l sig.v ∨ listVariance (lastN arr sig.v) = 0) :
    zScore sig sqrt arr = 0 ∧
    (0 ≤ sig.z_exit → decide_weight sig sqrt arr = 0) := by
  have hz : zScore sig sqrt arr = 0 := by
    rcases h with h | h
    · simp [zScore, h]
    · by_cases hlen : arr.length < max sig.l sig.v
      · simp [zScore, hlen]
      · simp [zScore, hlen, h, hsq0]
  refine ⟨hz, ?_⟩
  intro hze
  simp [decide_weight, hz, hze]

/-- Witness for C2 (amended) on a flat three-price history. -/
theorem neutral_signal_amended_witness :
    zScore ⟨1, 3, 2, 6/5, 3/10⟩ (fun _ => 0) [7, 7, 7] = 0 ∧
    ((0 : ℚ) ≤ 3/10 → decide_weight ⟨1, 3, 2, 6/5, 3/10⟩ (fun _ => 0) [7, 7, 7] = 0) :=
  neutral_signal_amended ⟨1, 3, 2, 6/5, 3/10⟩ (fun _ => 0) [7, 7, 7] rfl
    (Or.inr (by norm_num [listVariance, lastN, listMean]))

/-- Claim C6, counterexample: for the configuration s=1, l=3, v=2,
z_entry = −1, z_exit = −2 (which satisfies the claim's z_entry > z_exit)
and the history [11/4, 0, 1] the code computes z = −1/2 and weight 1,
while the claim's formula min(1, (z − z_entry)/z_entry + 0.5) yields 0 —
the claim omits the `1e-6` floor on the divisor. -/
theorem weight_mapping_counterexample :
    decide_weight ⟨1, 3, 2, -1, -2⟩ (fun x => if x = 1/4 then 1/2 else 0) [11/4, 0, 1] = 1 ∧
    spec_z ⟨1, 3, 2, -1, -2⟩ (fun x => if x = 1/4 then 1/2 else 0) [11/4, 0, 1] = -(1/2) ∧
    spec_weight ⟨1, 3, 2, -1, -2⟩ (-(1/2)) = 0 ∧
    IsSqrtOf ((fun x : ℚ => if x = 1/4 then 1/2 else 0) (listVariance (lastN [11/4, 0, 1] 2)))
      (listVariance (lastN [11/4, 0, 1] 2)) ∧
    max 3 2 ≤ ([11/4, 0, 1] : List ℚ).length ∧
    listVariance (lastN [11/4, 0, 1] 2) ≠ 0 ∧
    (-1 : ℚ) > -2 := by
  refine ⟨?_, ?_, ?_, ?_, by decide, ?_, by norm_num⟩
  · norm_num [decide_weight, zScore, lastN, listMean, listVariance]
  · norm_num [spec_z, lastN, listMean, listVariance]
  · norm_num [spec_weight]
  · constructor <;> norm_num [listVariance, lastN, listMean, IsSqrtOf]
  · norm_num [listVariance, lastN, listMean]

/-- Claim C6 as amended: for a history past warm-up with nonzero
dispersion and a configuration with z_entry > z_exit, z_entry ≥ 1e-6 and
z_entry − z_exit ≥ 1e-6 (so that the source's `1e-6` divisor floors are
inactive — the amendment the counterexample forces), `decide_weight`
returns exactly the spec's piecewise mapping of the spec's z-score. -/
theorem weight_mapping_amended (sig : MomVolSignal) (sqrt : ℚ → ℚ)
    (arr : List ℚ)
    (hlen : max sig.l sig.v ≤ arr.length)
    (hvar : listVariance (lastN arr sig.v) ≠ 0)
    (hsq : IsSqrtOf (sqrt (listVariance (lastN arr sig.v))) (listVariance (lastN arr sig.v)))
    (hz : sig.z_exit < sig.z_entry)
    (h1 : 1 / 1000000 ≤ sig.z_entry)
    (h2 : 1 / 1000000 ≤ sig.z_entry - sig.z_exit) :
    decide_weight sig sqrt arr = spec_weight sig (spec_z sig sqrt arr) := by
  have hvol : sqrt (listVariance (lastN arr sig.v)) ≠ 0 := by
    intro h0
    rcases hsq with ⟨_, hsq2⟩
    rw [h0] at hsq2
    exact hvar (by simpa using hsq2.symm)
  have hnlt : ¬ arr.length < max sig.l sig.v := not_lt.mpr hlen
  have hzeq : zScore sig sqrt arr = spec_z sig sqrt arr := by
    simp [zScore, spec_z, hnlt, hvol]
  have hm1 : max sig.z_entry (1 / 1000000) = sig.z_entry := max_eq_left h1
  have hm2 : max (sig.z_entry - sig.z_exit) (1 / 1000000) = sig.z_entry - sig.z_exit :=
    max_eq_left h2
  simp only [decide_weight, spec_weight, hzeq, hm1, hm2]

/-- Witness for C6 (amended) on a rising five-price history with the
repository's default thresholds. -/
theorem weight_mapping_amended_witness :
    decide_weight ⟨1, 3, 2, 6/5, 3/10⟩ (fun x => if x = 1/4 then 1/2 else 0) [0, 0, 1] =
      spec_weight ⟨1, 3, 2, 6/5, 3/10⟩
        (spec_z ⟨1, 3, 2, 6/5, 3/10⟩ (fun x => if x = 1/4 then 1/2 else 0) [0, 0, 1]) :=
  weight_mapping_amended ⟨1, 3, 2, 6/5, 3/10⟩ (fun x => if x = 1/4 then 1/2 else 0) [0, 0, 1]
    (by decide)
    (by norm_num [listVariance, lastN, listMean])
    (by constructor <;> norm_num [listVariance, lastN, listMean, IsSqrtOf])
    (by norm_num) (by norm_num) (by norm_num)

end Recall

namespace Recall

/-! Theorems for claim C1 (one-way drawdown stop). -/

/-- A sequence of `check_pretrade` calls, each a pair (wall-clock, equity);
returns the list of (allowed, reason) results and the final state. -/
def runPretrade (p : RiskParams) (st : RiskState) :
    List (ℚ × ℚ) → List (Bool × String) × RiskState
  | [] => ([], st)
  | c :: rest =>
      let r := check_pretrade p st c.1 c.2
      let t := runPretrade p r.2 rest
      (r.1 :: t.1, t.2)

theorem check_pretrade_stopped (p : RiskParams) (st : RiskState)
    (now equity : ℚ) (h : st.stopped = true) :
    check_pretrade p st now equity = ((false, "Drawdown stop active"), st) := by
  simp [check_pretrade, h]

theorem runPretrade_stopped (p : RiskParams) (st : RiskState)
    (calls : List (ℚ × ℚ)) (h : st.stopped = true) :
    runPretrade p st calls =
      (calls.map (fun _ => (false, "Drawdown stop active")), st) := by
  induction calls with
  | nil => simp [runPretrade]
  | cons c rest ih =>
      simp [runPretrade, check_pretrade_stopped p st c.1 c.2 h, ih]

theorem runPretrade_append (p : RiskParams) (st : RiskState)
    (xs ys : List (ℚ × ℚ)) :
    runPretrade p st (xs ++ ys) =
      ((runPretrade p st xs).1 ++ (runPretrade p (runPretrade p st xs).2 ys).1,
       (runPretrade p (runPretrade p st xs).2 ys).2) := by
  induction xs generalizing st with
  | nil => simp [runPretrade]
  | cons c rest ih =>
      simp [runPretrade, ih]

theorem check_pretrade_triggers (p : RiskParams) (st : RiskState)
    (now equity pk : ℚ) (hstop : st.stopped = false)
    (hpk : st.equity_peak = some pk)
    (hdd : p.max_drawdown_stop ≤ ddOf pk equity) :
    (check_pretrade p st now equity).1 =
      (false, ddMsg (ddOf pk equity) p.max_drawdown_stop) ∧
    (check_pretrade p st now equity).2.stopped = true := by
  have hpk1 : (reset_if_new_day st now).equity_peak = some pk := by
    simp only [reset_if_new_day]
    split <;> simpa using hpk
  simp [check_pretrade, hstop, hpk1, hdd]

/-- Claim C1 (confirmed): along any sequence of `check_pretrade` calls, a
call that finds its computed drawdown (from the refreshed peak) at or past
`max_drawdown_stop` answers (false, drawdown reason) and sets `stopped`;
from then on every subsequent call answers (false, "Drawdown stop active")
whatever equities are passed, and the final state is still stopped. -/
theorem drawdown_stop_one_way (p : RiskParams) (st : RiskState)
    (pre : List (ℚ × ℚ)) (now eq : ℚ) (rest : List (ℚ × ℚ)) (pk : ℚ)
    (hstop : (runPretrade p st pre).2.stopped = false)
    (hpk : (runPretrade p st pre).2.equity_peak = some pk)
    (hdd : p.max_drawdown_stop ≤ ddOf pk eq) :
    (check_pretrade p (runPretrade p st pre).2 now eq).1 =
      (false, ddMsg (ddOf pk eq) p.max_drawdown_stop) ∧
    (check_pretrade p (runPretrade p st pre).2 now eq).2.stopped = true ∧
    (runPretrade p st (pre ++ (now, eq) :: rest)).1 =
      (runPretrade p st pre).1 ++
        (false, ddMsg (ddOf pk eq) p.max_drawdown_stop) ::
          rest.map (fun _ => (false, "Drawdown stop active")) ∧
    (runPretrade p st (pre ++ (now, eq) :: rest)).2.stopped = true := by
  obtain ⟨hout, hstopped⟩ :=
    check_pretrade_triggers p (runPretrade p st pre).2 now eq pk hstop hpk hdd
  have hrest := runPretrade_stopped p
    (check_pretrade p (runPretrade p st pre).2 now eq).2 rest hstopped
  have hcons : runPretrade p (runPretrade p st pre).2 ((now, eq) :: rest) =
      ((false, ddMsg (ddOf pk eq) p.max_drawdown_stop) ::
        rest.map (fun _ => (false, "Drawdown stop active")),
       (check_pretrade p (runPretrade p st pre).2 now eq).2) := by
    simp only [runPretrade]
    rw [hrest, hout]
  refine ⟨hout, hstopped, ?_, ?_⟩
  · rw [runPretrade_append, hcons]
  · rw [runPretrade_append, hcons]
    exact hstopped

theorem dayOf_100000 : dayOf 100000 = 1 := by decide

/-- Witness for C1: starting fresh, equity 1000 then 799 with a 20% stop
threshold trips the stop at the second call and the third call (equity
recovered to 1200) is still refused with "Drawdown stop active". -/
theorem drawdown_stop_one_way_witness :
    (check_pretrade ⟨0, 100, 10, 1/4, 100, 1/5, 1, 7/20⟩
        (runPretrade ⟨0, 100, 10, 1/4, 100, 1/5, 1, 7/20⟩
          ⟨0, 1, 0, none, false, []⟩ [(100000, 1000)]).2 200000 799).1 =
      (false, ddMsg (ddOf 1000 799) (⟨0, 100, 10, 1/4, 100, 1/5, 1, 7/20⟩ : RiskParams).max_drawdown_stop) ∧
    (check_pretrade ⟨0, 100, 10, 1/4, 100, 1/5, 1, 7/20⟩
        (runPretrade ⟨0, 100, 10, 1/4, 100, 1/5, 1, 7/20⟩
          ⟨0, 1, 0, none, false, []⟩ [(100000, 1000)]).2 200000 799).2.stopped = true ∧
    (runPretrade ⟨0, 100, 10, 1/4, 100, 1/5, 1, 7/20⟩ ⟨0, 1, 0, none, false, []⟩
        ([(100000, 1000)] ++ (200000, 799) :: [(300000, 1200)])).1 =
      (runPretrade ⟨0, 100, 10, 1/4, 100, 1/5, 1, 7/20⟩
          ⟨0, 1, 0, none, false, []⟩ [(100000, 1000)]).1 ++
        (false, ddMsg (ddOf 1000 799) (⟨0, 100, 10, 1/4, 100, 1/5, 1, 7/20⟩ : RiskParams).max_drawdown_stop) ::
          ([(300000, 1200)] : List (ℚ × ℚ)).map (fun _ => (false, "Drawdown stop active")) ∧
    (runPretrade ⟨0, 100, 10, 1/4, 100, 1/5, 1, 7/20⟩ ⟨0, 1, 0, none, false, []⟩
        ([(100000, 1000)] ++ (200000, 799) :: [(300000, 1200)])).2.stopped = true :=
  drawdown_stop_one_way ⟨0, 100, 10, 1/4, 100, 1/5, 1, 7/20⟩
    ⟨0, 1, 0, none, false, []⟩ [(100000, 1000)] 200000 799 [(300000, 1200)] 1000
    (by norm_num [runPretrade, check_pretrade, reset_if_new_day, dayOf_100000, postPeakChecks])
    (by norm_num [runPretrade, check_pretrade, reset_if_new_day, dayOf_100000, postPeakChecks])
    (by norm_num [ddOf])

end Recall

namespace Recall

/-! Theorems for claim C7 (daily counter rollover).  The RiskManager
operations that touch or read the counter are modelled as an operation
alphabet and a step function over RiskState. -/

/-- The RiskManager operations relevant to the daily counter. -/
inductive RMOp
  | markTrade
  | checkPretrade (equity : ℚ)
  | getCount
  | needsMore
  deriving DecidableEq

/-- One RiskManager call at wall-clock `now`: `mark_trade` records,
`check_pretrade` runs its checks, `get_daily_trade_count` and
`needs_more_trades` only run the lazy rollover check. -/
def rmStep (p : RiskParams) (st : RiskState) (now : ℚ) : RMOp → RiskState
  | .markTrade => mark_trade st now
  | .checkPretrade e => (check_pretrade p st now e).2
  | .getCount => reset_if_new_day st now
  | .needsMore => reset_if_new_day st now

/-- A sequence of timestamped RiskManager operations. -/
def runOps (p : RiskParams) (st : RiskState) : List (ℚ × RMOp) → RiskState
  | [] => st
  | c :: rest => runOps p (rmStep p st c.1 c.2) rest

theorem postPeakChecks_snd (p : RiskParams) (st : RiskState) (now : ℚ) :
    (postPeakChecks p st now).2 = st := by
  simp only [postPeakChecks]
  split_ifs <;> rfl

theorem reset_sameday (st : RiskState) (now : ℚ)
    (h : dayOf now = st.day_start) : reset_if_new_day st now = st := by
  simp [reset_if_new_day, h]

theorem check_pretrade_counts (p : RiskParams) (st : RiskState) (now e : ℚ)
    (h : st.stopped = false) :
    (check_pretrade p st now e).2.daily_count = (reset_if_new_day st now).daily_count ∧
    (check_pretrade p st now e).2.day_start = (reset_if_new_day st now).day_start := by
  simp only [check_pretrade, h, Bool.false_eq_true, if_false]
  rcases hpk : (reset_if_new_day st now).equity_peak with _ | pk
  · simp [hpk, postPeakChecks_snd]
  · by_cases hdd : p.max_drawdown_stop ≤ ddOf pk e
    · simp [hpk, hdd]
    · simp [hpk, hdd, postPeakChecks_snd]

theorem rmStep_sameday (p : RiskParams) (st : RiskState) (now : ℚ)
    (h : dayOf now = st.day_start) (op : RMOp) :
    (rmStep p st now op).daily_count
        = st.daily_count + (if op = RMOp.markTrade then 1 else 0) ∧
    (rmStep p st now op).day_start = st.day_start := by
  cases op with
  | markTrade => simp [rmStep, mark_trade]
  | checkPretrade e =>
      by_cases hst : st.stopped = true
      · rw [show rmStep p st now (RMOp.checkPretrade e) = st by
          simp [rmStep, check_pretrade_stopped p st now e hst]]
        simp
      · have h2 := check_pretrade_counts p st now e (by simpa using hst)
        rw [reset_sameday st now h] at h2
        simpa [rmStep] using h2
  | getCount => simp [rmStep, reset_sameday st now h]
  | needsMore => simp [rmStep, reset_sameday st now h]

theorem runOps_mono (p : RiskParams) (ops : List (ℚ × RMOp)) :
    ∀ st : RiskState, (∀ c ∈ ops, dayOf c.1 = st.day_start) →
      st.daily_count ≤ (runOps p st ops).daily_count ∧
      (runOps p st ops).day_start = st.day_start := by
  induction ops with
  | nil => intro st _; exact ⟨le_refl _, rfl⟩
  | cons c rest ih =>
      intro st h
      have hc : dayOf c.1 = st.day_start := h c (List.mem_cons_self c rest)
      obtain ⟨hcount, hday⟩ := rmStep_sameday p st c.1 hc c.2
      have hrest : ∀ x ∈ rest, dayOf x.1 = (rmStep p st c.1 c.2).day_start := by
        intro x hx
        rw [hday]
        exact h x (List.mem_cons_of_mem c hx)
      obtain ⟨ih1, ih2⟩ := ih (rmStep p st c.1 c.2) hrest
      constructor
      · refine le_trans ?_ ih1
        rw [hcount]
        exact Nat.le_add_right _ _
      · rw [runOps, ih2, hday]

/-- Claim C7 (confirmed): within a UTC day (`floor(seconds/86400)` bucket)
`mark_trade` adds exactly 1 to `daily_count`, every other operation leaves
it and the day marker unchanged, and the counter is non-decreasing along
any same-day operation sequence; across a day boundary, the counter is set
to 0 (and the marker moved, so the reset happens only once) by the first
operation that runs the rollover check — `get_daily_trade_count`,
`needs_more_trades`, or a non-stopped `check_pretrade` (a stopped
`check_pretrade` returns before the rollover check and leaves the state
untouched); `mark_trade` itself never resets. -/
theorem daily_rollover (p : RiskParams) (st : RiskState) (now e : ℚ) :
    (dayOf now = st.day_start →
      ∀ op, (rmStep p st now op).daily_count
              = st.daily_count + (if op = RMOp.markTrade then 1 else 0) ∧
            (rmStep p st now op).day_start = st.day_start) ∧
    (dayOf now ≠ st.day_start →
      ((rmStep p st now RMOp.getCount).daily_count = 0 ∧
       (rmStep p st now RMOp.getCount).day_start = dayOf now) ∧
      ((rmStep p st now RMOp.needsMore).daily_count = 0 ∧
       (rmStep p st now RMOp.needsMore).day_start = dayOf now) ∧
      (st.stopped = false →
       (rmStep p st now (RMOp.checkPretrade e)).daily_count = 0 ∧
       (rmStep p st now (RMOp.checkPretrade e)).day_start = dayOf now)) ∧
    ((rmStep p st now RMOp.markTrade).daily_count = st.daily_count + 1 ∧
     (rmStep p st now RMOp.markTrade).day_start = st.day_start) ∧
    (st.stopped = true → rmStep p st now (RMOp.checkPretrade e) = st) ∧
    (∀ ops : List (ℚ × RMOp), (∀ c ∈ ops, dayOf c.1 = st.day_start) →
      st.daily_count ≤ (runOps p st ops).daily_count) := by
  refine ⟨?_, ?_, ?_, ?_, ?_⟩
  · intro h op
    exact rmStep_sameday p st now h op
  · intro h
    have hreset : reset_if_new_day st now =
        { st with day_start := dayOf now, daily_count := 0, daily_trade_times := [] } := by
      simp [reset_if_new_day, h]
    refine ⟨?_, ?_, ?_⟩
    · simp [rmStep, hreset]
    · simp [rmStep, hreset]
    · intro hst
      have h2 := check_pretrade_counts p st now e hst
      rw [hreset] at h2
      simpa [rmStep] using h2
  · simp [rmStep, mark_trade]
  · intro hst
    simp [rmStep, check_pretrade_stopped p st now e hst]
  · intro ops h
    exact (runOps_mono p ops st h).1

theorem dayOf_200000 : dayOf 200000 = 2 := by decide

/-- Witness for C7: with 5 trades recorded on day 1, a same-day
`mark_trade` at t=100000 moves the counter to 6, a next-day
`get_daily_trade_count` at t=200000 resets it to 0, and a same-day
operation sequence never decreases it. -/
theorem daily_rollover_witness :
    (rmStep ⟨3, 120, 20, 1/4, 100, 18/100, 1, 7/20⟩
      ⟨5, 1, 0, some 1000, false, []⟩ 100000 RMOp.markTrade).daily_count = 6 ∧
    (rmStep ⟨3, 120, 20, 1/4, 100, 18/100, 1, 7/20⟩
      ⟨5, 1, 0, some 1000, false, []⟩ 200000 RMOp.getCount).daily_count = 0 ∧
    5 ≤ (runOps ⟨3, 120, 20, 1/4, 100, 18/100, 1, 7/20⟩
      ⟨5, 1, 0, some 1000, false, []⟩ [(100000, RMOp.markTrade)]).daily_count := by
  have h := daily_rollover ⟨3, 120, 20, 1/4, 100, 18/100, 1, 7/20⟩
    ⟨5, 1, 0, some 1000, false, []⟩ 100000 1000
  have h2 := daily_rollover ⟨3, 120, 20, 1/4, 100, 18/100, 1, 7/20⟩
    ⟨5, 1, 0, some 1000, false, []⟩ 200000 1000
  refine ⟨?_, ?_, ?_⟩
  · have := (h.1 (by rw [dayOf_100000]) RMOp.markTrade).1
    simpa using this
  · exact ((h2.2.1 (by rw [dayOf_200000]; decide)).1).1
  · refine h.2.2.2.2 [(100000, RMOp.markTrade)] ?_
    intro c hc
    fin_cases hc
    exact dayOf_100000

end Recall

namespace Recall

/-! Source: src/rate_limiter.py — RateLimiter.  The five deques are a
total map from window keys to timestamp lists; Python's aliasing (an
unmatched endpoint uses the global per-minute deque as its category
window) is the key `grpm` itself. -/

/-- The five sliding windows of `RateLimiter.__init__`. -/
inductive WKey
  | trade
  | price
  | balance
  | grpm
  | grph
  deriving DecidableEq

/-- The `limits` dict of `RateLimiter.__init__` with its lookups already
resolved (the source reads each key with a fixed default; the claims are
about a fixed limits map, so the resolved values are the model). -/
structure RateLimits where
  trade_operations : Nat
  price_queries : Nat
  balance_checks : Nat
  global_rpm : Nat
  global_rph : Nat

/-- State of the limiter: content of each window, oldest first. -/
def updW (st : WKey → List ℚ) (k : WKey) (v : List ℚ) : WKey → List ℚ :=
  fun j => if j = k then v else st j

/-- Substring decision `pat in hay` on character lists. -/
def containsAux (pat : List Char) : List Char → Bool
  | [] => pat.isEmpty
  | c :: rest => pat.isPrefixOf (c :: rest) || containsAux pat rest

/-- Python's `pat in hay` substring test. -/
def strContains (hay pat : String) : Bool := containsAux pat.data hay.data

/-- Endpoint classification of `RateLimiter.acquire`: substring match on
the endpoint name; the fallback category is the global per-minute window
itself. -/
def classify (endpoint : String) : WKey :=
  if strContains endpoint "trade" then WKey.trade
  else if strContains endpoint "price" then WKey.price
  else if strContains endpoint "balance" || strContains endpoint "portfolio" then WKey.balance
  else WKey.grpm

/-- Limit attached to a window key (deque maxlen = admission limit in the
source). -/
def catLimit (lim : RateLimits) : WKey → Nat
  | WKey.trade => lim.trade_operations
  | WKey.price => lim.price_queries
  | WKey.balance => lim.balance_checks
  | WKey.grpm => lim.global_rpm
  | WKey.grph => lim.global_rph

/-- `RateLimiter._clean_window`: drop leading timestamps older than
`now - duration` (the deque is oldest-first, the while loop pops from the
left until the head is recent enough). -/
def cleanWindow (now dur : ℚ) : List ℚ → List ℚ
  | [] => []
  | x :: xs => if x < now - dur then cleanWindow now dur xs else x :: xs

/-- `deque.append` with maxlen: evict from the left on overflow. -/
def dappend {α : Type} (maxlen : Nat) (xs : List α) (x : α) : List α :=
  let ys := xs ++ [x]
  if maxlen < ys.length then ys.drop (ys.length - maxlen) else ys

/-- `RateLimiter.acquire`: classify the endpoint, clean the category
window, then check (in order) the global per-minute window, the global
per-hour window, and the category window, denying with the wait implied by
the first full window; otherwise append `now` to the category window and
both global windows.  Python raises IndexError when a full window has
limit 0 (empty deque indexed at 0); that is the `none` result. -/
def acquire (lim : RateLimits) (st : WKey → List ℚ) (now : ℚ)
    (endpoint : String) : Option ((Bool × ℚ) × (WKey → List ℚ)) :=
  let k := classify endpoint
  let wCat := cleanWindow now 60 (st k)
  let rpm := cleanWindow now 60 (if k = WKey.grpm then wCat else st WKey.grpm)
  let stA := updW (updW st k wCat) WKey.grpm rpm
  if lim.global_rpm ≤ rpm.length then
    rpm.head?.map (fun h => ((false, max 0 (60 - (now - h) + 1/10)), stA))
  else
    let rph := cleanWindow now 3600 (st WKey.grph)
    let stB := updW stA WKey.grph rph
    if lim.global_rph ≤ rph.length then
      rph.head?.map (fun h => ((false, max 0 (3600 - (now - h) + 1)), stB))
    else
      let wCat2 := if k = WKey.grpm then rpm else wCat
      if catLimit lim k ≤ wCat2.length then
        wCat2.head?.map (fun h => ((false, max 0 (60 - (now - h) + 1/10)), stB))
      else
        let aw := dappend (catLimit lim k) wCat2 now
        let stC := updW stB k aw
        let rpm2 := dappend lim.global_rpm (if k = WKey.grpm then aw else rpm) now
        let stD := updW stC WKey.grpm rpm2
        let rph2 := dappend lim.global_rph rph now
        let stE := updW stD WKey.grph rph2
        some ((true, 0), stE)

/-- The (granted, wait) part of `acquire`'s result. -/
def acquireResult (lim : RateLimits) (st : WKey → List ℚ) (now : ℚ)
    (endpoint : String) : Option (Bool × ℚ) :=
  (acquire lim st now endpoint).map (fun r => r.1)

/-- Head of a window, defaulting to 0 (only read on nonempty windows). -/
def headD (xs : List ℚ) : ℚ := xs.head?.getD 0

/-- Spare capacity in the global per-minute window after purging. -/
def rpmSpare (lim : RateLimits) (st : WKey → List ℚ) (now : ℚ) : Prop :=
  (cleanWindow now 60 (st WKey.grpm)).length < lim.global_rpm

/-- Spare capacity in the global per-hour window after purging. -/
def rphSpare (lim : RateLimits) (st : WKey → List ℚ) (now : ℚ) : Prop :=
  (cleanWindow now 3600 (st WKey.grph)).length < lim.global_rph

/-- Spare capacity in the matched category window after purging. -/
def catSpare (lim : RateLimits) (st : WKey → List ℚ) (now : ℚ) (k : WKey) : Prop :=
  (cleanWindow now 60 (st k)).length < catLimit lim k

instance (lim : RateLimits) (st : WKey → List ℚ) (now : ℚ) :
    Decidable (rpmSpare lim st now) := Nat.decLt _ _

instance (lim : RateLimits) (st : WKey → List ℚ) (now : ℚ) :
    Decidable (rphSpare lim st now) := Nat.decLt _ _

instance (lim : RateLimits) (st : WKey → List ℚ) (now : ℚ) (k : WKey) :
    Decidable (catSpare lim st now k) := Nat.decLt _ _

/-- Wait the code reports for a full global per-minute window. -/
def rpmWait (st : WKey → List ℚ) (now : ℚ) : ℚ :=
  max 0 (60 - (now - headD (cleanWindow now 60 (st WKey.grpm))) + 1/10)

/-- Wait the code reports for a full global per-hour window. -/
def rphWait (st : WKey → List ℚ) (now : ℚ) : ℚ :=
  max 0 (3600 - (now - headD (cleanWindow now 3600 (st WKey.grph))) + 1)

/-- Wait the code reports for a full category window. -/
def catWait (st : WKey → List ℚ) (now : ℚ) (k : WKey) : ℚ :=
  max 0 (60 - (now - headD (cleanWindow now 60 (st k))) + 1/10)

/-- The wait of the first violated window in the source's check order:
global per-minute, then global per-hour, then the category window. -/
def firstViolatedWait (lim : RateLimits) (st : WKey → List ℚ) (now : ℚ)
    (k : WKey) : ℚ :=
  if ¬ rpmSpare lim st now then rpmWait st now
  else if ¬ rphSpare lim st now then rphWait st now
  else catWait st now k

/-- The waits of all violated windows — what the claim quantifies over
("the longest wait among the violated windows"). -/
def violatedWaits (lim : RateLimits) (st : WKey → List ℚ) (now : ℚ)
    (k : WKey) : List ℚ :=
  (if ¬ rpmSpare lim st now then [rpmWait st now] else []) ++
  (if ¬ rphSpare lim st now then [rphWait st now] else []) ++
  (if ¬ catSpare lim st now k then [catWait st now k] else [])

/-- Maximum of a list of nonnegative waits. -/
def maxWait (l : List ℚ) : ℚ := l.foldr max 0

theorem cleanWindow_idem (now dur : ℚ) (xs : List ℚ) :
    cleanWindow now dur (cleanWindow now dur xs) = cleanWindow now dur xs := by
  induction xs with
  | nil => rfl
  | cons x t ih =>
      by_cases h : x < now - dur
      · simp [cleanWindow, h, ih]
      · simp [cleanWindow, h]

theorem classify_ne_grph (endpoint : String) : classify endpoint ≠ WKey.grph := by
  unfold classify
  split_ifs <;> simp

end Recall

namespace Recall

/-- Claim C4 as amended: admission is granted iff the matched category
window, the global per-minute window and the global per-hour window all
have spare capacity after purging (this half of the claim holds); when
denied, the returned wait is that of the *first violated window in the
source's check order* — global per-minute, then per-hour, then category —
not the longest wait among the violated windows. -/
theorem rate_limiter_admission_amended (lim : RateLimits) (st : WKey → List ℚ)
    (now : ℚ) (ep : String)
    (h1 : 0 < lim.global_rpm) (h2 : 0 < lim.global_rph)
    (h3 : 0 < catLimit lim (classify ep)) :
    (rpmSpare lim st now ∧ rphSpare lim st now ∧ catSpare lim st now (classify ep) →
      acquireResult lim st now ep = some (true, 0)) ∧
    (¬ (rpmSpare lim st now ∧ rphSpare lim st now ∧ catSpare lim st now (classify ep)) →
      acquireResult lim st now ep =
        some (false, firstViolatedWait lim st now (classify ep))) := by
  have hrpm_eq : cleanWindow now 60
      (if classify ep = WKey.grpm then cleanWindow now 60 (st (classify ep))
       else st WKey.grpm) = cleanWindow now 60 (st WKey.grpm) := by
    by_cases hk : classify ep = WKey.grpm
    · rw [if_pos hk, hk, cleanWindow_idem]
    · rw [if_neg hk]
  have hcat2_eq : (if classify ep = WKey.grpm then cleanWindow now 60 (st WKey.grpm)
      else cleanWindow now 60 (st (classify ep))) = cleanWindow now 60 (st (classify ep)) := by
    by_cases hk : classify ep = WKey.grpm
    · rw [if_pos hk, hk]
    · rw [if_neg hk]
  constructor
  · rintro ⟨hA, hB, hC3⟩
    have cA : ¬ lim.global_rpm ≤ (cleanWindow now 60 (st WKey.grpm)).length := not_le.mpr hA
    have cB : ¬ lim.global_rph ≤ (cleanWindow now 3600 (st WKey.grph)).length := not_le.mpr hB
    have cC : ¬ catLimit lim (classify ep) ≤ (cleanWindow now 60 (st (classify ep))).length :=
      not_le.mpr hC3
    simp only [acquireResult, acquire]
    rw [hrpm_eq, hcat2_eq, if_neg cA, if_neg cB, if_neg cC]
    rfl
  · intro hnot
    by_cases hA : rpmSpare lim st now
    · by_cases hB : rphSpare lim st now
      · have hC3 : ¬ catSpare lim st now (classify ep) := by tauto
        have cA : ¬ lim.global_rpm ≤ (cleanWindow now 60 (st WKey.grpm)).length := not_le.mpr hA
        have cB : ¬ lim.global_rph ≤ (cleanWindow now 3600 (st WKey.grph)).length := not_le.mpr hB
        have cC : catLimit lim (classify ep) ≤ (cleanWindow now 60 (st (classify ep))).length :=
          not_lt.mp hC3
        have hlen : 0 < (cleanWindow now 60 (st (classify ep))).length := lt_of_lt_of_le h3 cC
        simp only [acquireResult, acquire]
        rw [hrpm_eq, hcat2_eq, if_neg cA, if_neg cB, if_pos cC]
        cases hW0 : cleanWindow now 60 (st (classify ep)) with
        | nil => rw [hW0] at hlen; simp at hlen
        | cons a t =>
            simp [firstViolatedWait, hA, hB, hC3, catWait, headD, hW0]
      · have cA : ¬ lim.global_rpm ≤ (cleanWindow now 60 (st WKey.grpm)).length := not_le.mpr hA
        have cB : lim.global_rph ≤ (cleanWindow now 3600 (st WKey.grph)).length := not_lt.mp hB
        have hlen : 0 < (cleanWindow now 3600 (st WKey.grph)).length := lt_of_lt_of_le h2 cB
        simp only [acquireResult, acquire]
        rw [hrpm_eq, if_neg cA, if_pos cB]
        cases hW0 : cleanWindow now 3600 (st WKey.grph) with
        | nil => rw [hW0] at hlen; simp at hlen
        | cons a t =>
            simp [firstViolatedWait, hA, hB, rphWait, headD, hW0]
    · have cA : lim.global_rpm ≤ (cleanWindow now 60 (st WKey.grpm)).length := not_lt.mp hA
      have hlen : 0 < (cleanWindow now 60 (st WKey.grpm)).length := lt_of_lt_of_le h1 cA
      simp only [acquireResult, acquire]
      rw [hrpm_eq, if_pos cA]
      cases hW0 : cleanWindow now 60 (st WKey.grpm) with
      | nil => rw [hW0] at hlen; simp at hlen
      | cons a t =>
          simp [firstViolatedWait, hA, rpmWait, headD, hW0]

end Recall

namespace Recall

theorem classify_trade : classify "trade" = WKey.trade := by decide

/-- Witness for C4 (amended): with all limits 1 and empty windows, a
"trade" acquire at t=0 is granted with wait 0. -/
theorem rate_limiter_admission_amended_witness :
    acquireResult ⟨1, 1, 1, 1, 1⟩ (fun _ => []) 0 "trade" = some (true, 0) :=
  (rate_limiter_admission_amended ⟨1, 1, 1, 1, 1⟩ (fun _ => []) 0 "trade"
    (by decide) (by decide) (by decide)).1
    (by refine ⟨?_, ?_, ?_⟩ <;> decide)

/-- Claim C4, counterexample: limits trade=1, rpm=1, rph=10; the trade
window holds a fresh timestamp (wait 59.1s) and the global per-minute
window an almost-expired one (wait 0.2s).  Both are violated; the claim
says the returned wait is the longest violated wait (59.1s = 591/10), but
the code returns the global per-minute wait 0.2s = 1/5, because that
window is checked first. -/
theorem rate_limiter_counterexample :
    acquireResult ⟨1, 1, 1, 1, 10⟩
      (fun k => match k with
        | WKey.trade => [99]
        | WKey.grpm => [401/10]
        | _ => []) 100 "trade" = some (false, 1/5) ∧
    maxWait (violatedWaits ⟨1, 1, 1, 1, 10⟩
      (fun k => match k with
        | WKey.trade => [99]
        | WKey.grpm => [401/10]
        | _ => []) 100 (classify "trade")) = 591/10 ∧
    (1/5 : ℚ) ≠ 591/10 := by
  refine ⟨?_, ?_, by norm_num⟩
  · norm_num [acquireResult, acquire, classify_trade, cleanWindow, headD]
  · norm_num [maxWait, violatedWaits, classify_trade, rpmSpare, rphSpare, catSpare,
      rpmWait, rphWait, catWait, cleanWindow, headD, catLimit]

end Recall

namespace Recall

/-! Source: src/data.py — PriceSeries, and src/main.py lines 223–234 — the
price-poll step of the control loop.  IEEE special values matter here, so
the fetched float is modelled explicitly. -/

/-- A Python float as the price poll can see it. -/
inductive PyFloat
  | fin (q : ℚ)
  | inf
  | ninf
  | nan
  deriving DecidableEq

/-- Python's `px > 0` under IEEE comparison rules: positive finite values
and +inf compare greater than zero; nan compares false. -/
def pyPos : PyFloat → Bool
  | .fin q => decide (0 < q)
  | .inf => true
  | .ninf => false
  | .nan => false

/-- `PriceSeries`: a `deque(maxlen=...)` of prices; polymorphic so that
the poll-step model can store `PyFloat` while the signal path reads exact
rationals. -/
structure PriceSeries (α : Type) where
  maxlen : Nat
  values : List α
  deriving DecidableEq

/-- `PriceSeries.add`: deque append with eviction of the oldest entry. -/
def PriceSeries.add {α : Type} (ps : PriceSeries α) (x : α) : PriceSeries α :=
  { ps with values := dappend ps.maxlen ps.values x }

/-- `PriceSeries.ready`: enough history accumulated. -/
def PriceSeries.ready {α : Type} (ps : PriceSeries α) (n : Nat) : Bool :=
  decide (n ≤ ps.values.length)

/-- One asset's price-poll step in the control loop: `none` models the
fetch raising (caught and logged, series untouched); a fetched value is
appended iff `px > 0`. -/
def pollStep (ser : PriceSeries PyFloat) (fetch : Option PyFloat) :
    PriceSeries PyFloat :=
  match fetch with
  | none => ser
  | some px => if pyPos px then ser.add px else ser

/-- Claim C8, counterexample: a fetched `+inf` satisfies `px > 0` and is
appended, contradicting the claim that infinite values are skipped. -/
theorem price_ingestion_counterexample :
    (pollStep ⟨5, []⟩ (some PyFloat.inf)).values = [PyFloat.inf] ∧
    ([PyFloat.inf] : List PyFloat) ≠ [] := by
  constructor
  · rfl
  · simp

/-- Claim C8 as amended: a `PriceSeries` never exceeds its capacity and
evicts the oldest entry on overflow (this half holds); the poll step
appends a fetched value iff it compares greater than zero under IEEE
rules — positive finite values AND `+inf` are appended, while NaN, `-inf`
and non-positive values are skipped (the claim's "and finite" fails on
`+inf`); a failed fetch leaves the series unchanged. -/
theorem price_ingestion_amended :
    (∀ (α : Type) (ser : PriceSeries α) (x : α),
      ser.values.length ≤ ser.maxlen → (ser.add x).values.length ≤ ser.maxlen) ∧
    (∀ (α : Type) (ser : PriceSeries α) (x : α),
      ser.values.length = ser.maxlen → 0 < ser.maxlen →
      (ser.add x).values = ser.values.tail ++ [x]) ∧
    (∀ ser : PriceSeries PyFloat, pollStep ser none = ser) ∧
    (∀ (ser : PriceSeries PyFloat) (px : PyFloat),
      pyPos px = true → pollStep ser (some px) = ser.add px) ∧
    (∀ (ser : PriceSeries PyFloat) (px : PyFloat),
      pyPos px = false → pollStep ser (some px) = ser) ∧
    (∀ q : ℚ, pyPos (PyFloat.fin q) = decide (0 < q)) ∧
    pyPos PyFloat.nan = false ∧ pyPos PyFloat.ninf = false ∧
    pyPos PyFloat.inf = true := by
  refine ⟨?_, ?_, ?_, ?_, ?_, ?_, rfl, rfl, rfl⟩
  · intro α ser x h
    simp only [PriceSeries.add, dappend]
    split_ifs with hover
    · simp only [List.length_drop, List.length_append, List.length_singleton] at hover ⊢
      omega
    · simp only [List.length_append, List.length_singleton] at hover ⊢
      omega
  · intro α ser x h hpos
    cases hv : ser.values with
    | nil => rw [hv] at h; simp at h; omega
    | cons a t =>
        rw [hv] at h
        simp only [List.length_cons] at h
        simp only [PriceSeries.add, dappend, hv]
        rw [if_pos (by simp; omega)]
        simp only [List.cons_append, List.length_append, List.length_cons,
          List.length_singleton]
        rw [show t.length + ([].length + 1) + 1 - ser.maxlen = 1 by simp; omega]
        simp
  · intro ser; rfl
  · intro ser px h; simp [pollStep, h]
  · intro ser px h; simp [pollStep, h]
  · intro q; rfl

/-- Witness for C8 (amended) at a full two-slot series. -/
theorem price_ingestion_amended_witness :
    ((⟨2, [1, 2]⟩ : PriceSeries ℚ).add 3).values.length ≤ 2 ∧
    ((⟨2, [1, 2]⟩ : PriceSeries ℚ).add 3).values = [(1 : ℚ), 2].tail ++ [3] ∧
    pollStep ⟨2, []⟩ (some (PyFloat.fin 7)) = (⟨2, []⟩ : PriceSeries PyFloat).add (PyFloat.fin 7) ∧
    pollStep ⟨2, []⟩ (some PyFloat.nan) = (⟨2, []⟩ : PriceSeries PyFloat) :=
  ⟨price_ingestion_amended.1 ℚ ⟨2, [1, 2]⟩ 3 (by decide),
   price_ingestion_amended.2.1 ℚ ⟨2, [1, 2]⟩ 3 (by decide) (by decide),
   price_ingestion_amended.2.2.2.1 ⟨2, []⟩ (PyFloat.fin 7) (by decide),
   price_ingestion_amended.2.2.2.2.1 ⟨2, []⟩ PyFloat.nan rfl⟩

end Recall

namespace Recall

/-! Source: src/main.py — the exit pass (lines 279–325) and the rebalance
pass (lines 327–387) of the control loop.  The venue's `execute` call is an
oracle: each prospective order carries the Bool outcome its transport call
would have (`true` = returns, `false` = raises).  Every risk-manager call,
order emission and trade recording is logged in an event trace. -/

/-- Observable actions of a control-loop pass. -/
inductive TradeEvent
  | execCall (size : ℚ) (success : Bool)
  | markEv
  | checkPretradeEv
  | checkSizeEv
  | checkExposureEv
  deriving DecidableEq

/-- Momentum ratio of src/main.py lines 250 and 299:
`np.mean(arr[-look_s:]) / np.mean(arr[-look_l:]) - 1`. -/
def momentum (arr : List ℚ) (s l : Nat) : ℚ :=
  listMean (lastN arr s) / listMean (lastN arr l) - 1

/-- The control-loop parameters the two passes read. -/
structure LoopCfg where
  look_s : Nat
  look_l : Nat
  vol_look : Nat
  min_mom : ℚ
  target_cash_frac : ℚ

/-- One universe entry as the exit pass sees it: token balance, current
USD exposure, membership in this cycle's signal set, the price history
array, and whether a USDC address exists on the asset's chain. -/
structure ExitItem where
  bal : ℚ
  exposure : ℚ
  inSignals : Bool
  arr : List ℚ
  usdcFound : Bool

/-- The exit decision of src/main.py lines 291–302: exit when the asset
has no current signal, or when its history is ready
(`ps.ready(min(look_l, vol_look))`) and momentum is below the minimum. -/
def shouldExit (cfg : LoopCfg) (it : ExitItem) : Bool :=
  if !it.inSignals then true
  else
    decide (min cfg.look_l cfg.vol_look ≤ it.arr.length) &&
      decide (momentum it.arr cfg.look_s cfg.look_l < cfg.min_mom)

/-- One asset's exit-pass step (src/main.py lines 279–325): skip dust and
zero balances; on exit, if a USDC address exists, sell
min(exposure, per_trade_base_usd) and mark the trade only when the
execute call returns; an exception leaves the risk state untouched. -/
def exitStep (cfg : LoopCfg) (p : RiskParams) (it : ExitItem)
    (risk : RiskState) (now : ℚ) (ok : Bool) : RiskState × List TradeEvent :=
  if it.bal ≤ 0 then (risk, [])
  else if it.exposure < 1 then (risk, [])
  else if shouldExit cfg it then
    if it.usdcFound then
      let size := min it.exposure p.per_trade_base_usd
      if ok then (mark_trade risk now, [TradeEvent.execCall size true, TradeEvent.markEv])
      else (risk, [TradeEvent.execCall size false])
    else (risk, [])
  else (risk, [])

/-- The exit pass over the whole universe, threading the risk state. -/
def exitPass (cfg : LoopCfg) (p : RiskParams) (risk : RiskState) (now : ℚ) :
    List (ExitItem × Bool) → RiskState × List TradeEvent
  | [] => (risk, [])
  | (it, ok) :: rest =>
      let r1 := exitStep cfg p it risk now ok
      let r2 := exitPass cfg p r1.1 now rest
      (r2.1, r1.2 ++ r2.2)

/-- One target entry of the rebalance pass: its final (renormalised)
weight, current USD exposure, and USDC availability. -/
structure RebItem where
  finalWeight : ℚ
  exposure : ℚ
  usdcFound : Bool

/-- One asset's rebalance-pass step (src/main.py lines 340–385): compute
the capped delta-to-target, validate trade size and projected exposure,
find USDC, then buy; the trade is marked only when the execute call
returns. -/
def rebStep (cfg : LoopCfg) (p : RiskParams) (it : RebItem) (equity : ℚ)
    (risk : RiskState) (now : ℚ) (ok : Bool) : RiskState × List TradeEvent :=
  let target_usd := equity * (it.finalWeight * (1 - cfg.target_cash_frac))
  let delta := target_usd - it.exposure
  if 5 < delta then
    let size := min delta p.per_trade_base_usd
    if (check_trade_size p size equity).1 = false then
      (risk, [TradeEvent.checkSizeEv])
    else if (check_asset_exposure p (it.exposure + size) equity).1 = false then
      (risk, [TradeEvent.checkSizeEv, TradeEvent.checkExposureEv])
    else if !it.usdcFound then
      (risk, [TradeEvent.checkSizeEv, TradeEvent.checkExposureEv])
    else if ok then
      (mark_trade risk now,
       [TradeEvent.checkSizeEv, TradeEvent.checkExposureEv,
        TradeEvent.execCall size true, TradeEvent.markEv])
    else
      (risk, [TradeEvent.checkSizeEv, TradeEvent.checkExposureEv,
              TradeEvent.execCall size false])
  else (risk, [])

/-- The per-asset loop of the rebalance pass (the sorted, truncated signal
list is the input). -/
def rebItems (cfg : LoopCfg) (p : RiskParams) (equity : ℚ) (risk : RiskState)
    (now : ℚ) : List (RebItem × Bool) → RiskState × List TradeEvent
  | [] => (risk, [])
  | (it, ok) :: rest =>
      let r1 := rebStep cfg p it equity risk now ok
      let r2 := rebItems cfg p equity r1.1 now rest
      (r2.1, r1.2 ++ r2.2)

/-- The rebalance pass: `get_daily_trade_count` (whose side effect is the
lazy day rollover), then `check_pretrade`; on rejection no order is even
considered, otherwise the per-asset loop runs. -/
def rebalancePass (cfg : LoopCfg) (p : RiskParams)
    (items : List (RebItem × Bool)) (equity : ℚ) (risk : RiskState)
    (now : ℚ) : RiskState × List TradeEvent :=
  let risk0 := reset_if_new_day risk now
  let pc := check_pretrade p risk0 now equity
  if pc.1.1 = false then (pc.2, [TradeEvent.checkPretradeEv])
  else
    let r := rebItems cfg p equity pc.2 now items
    (r.1, TradeEvent.checkPretradeEv :: r.2)

/-- Is an event a mark_trade invocation? -/
def isMark : TradeEvent → Bool
  | TradeEvent.markEv => true
  | _ => false

/-- Is an event an execute call that returned successfully? -/
def isSuccExec : TradeEvent → Bool
  | TradeEvent.execCall _ true => true
  | _ => false

/-- Number of mark_trade invocations in a trace. -/
def countMark (evs : List TradeEvent) : Nat := evs.countP isMark

/-- Number of successful execute calls in a trace. -/
def countSuccExec (evs : List TradeEvent) : Nat := evs.countP isSuccExec

end Recall

namespace Recall

theorem exitStep_counts (cfg : LoopCfg) (p : RiskParams) (it : ExitItem)
    (risk : RiskState) (now : ℚ) (ok : Bool) :
    countMark (exitStep cfg p it risk now ok).2
        = countSuccExec (exitStep cfg p it risk now ok).2 ∧
    (exitStep cfg p it risk now ok).1.daily_count
        = risk.daily_count + countSuccExec (exitStep cfg p it risk now ok).2 ∧
    (exitStep cfg p it risk now ok).1.stopped = risk.stopped ∧
    (exitStep cfg p it risk now ok).1.equity_peak = risk.equity_peak ∧
    (exitStep cfg p it risk now ok).1.day_start = risk.day_start := by
  unfold exitStep
  split_ifs <;>
    simp [mark_trade, countMark, countSuccExec, isMark, isSuccExec,
      List.countP_cons, List.countP_nil]

theorem exitPass_counts (cfg : LoopCfg) (p : RiskParams)
    (items : List (ExitItem × Bool)) : ∀ (risk : RiskState) (now : ℚ),
    countMark (exitPass cfg p risk now items).2
        = countSuccExec (exitPass cfg p risk now items).2 ∧
    (exitPass cfg p risk now items).1.daily_count
        = risk.daily_count + countSuccExec (exitPass cfg p risk now items).2 ∧
    (exitPass cfg p risk now items).1.stopped = risk.stopped ∧
    (exitPass cfg p risk now items).1.equity_peak = risk.equity_peak ∧
    (exitPass cfg p risk now items).1.day_start = risk.day_start := by
  induction items with
  | nil =>
      intro risk now
      simp [exitPass, countMark, countSuccExec]
  | cons c rest ih =>
      intro risk now
      obtain ⟨s1, s2, s3, s4, s5⟩ := exitStep_counts cfg p c.1 risk now c.2
      obtain ⟨i1, i2, i3, i4, i5⟩ :=
        ih (exitStep cfg p c.1 risk now c.2).1 now
      simp only [exitPass, countMark, countSuccExec, List.countP_append]
      refine ⟨?_, ?_, ?_, ?_, ?_⟩
      · rw [show (exitStep cfg p c.1 risk now c.2).2.countP isMark
            = countMark (exitStep cfg p c.1 risk now c.2).2 from rfl, s1]
        rw [show (exitPass cfg p (exitStep cfg p c.1 risk now c.2).1 now rest).2.countP isMark
            = countMark (exitPass cfg p (exitStep cfg p c.1 risk now c.2).1 now rest).2 from rfl, i1]
        rfl
      · rw [show (exitPass cfg p (exitStep cfg p c.1 risk now c.2).1 now rest).1.daily_count
            = (exitStep cfg p c.1 risk now c.2).1.daily_count
              + countSuccExec (exitPass cfg p (exitStep cfg p c.1 risk now c.2).1 now rest).2
            from i2, s2]
        simp [countSuccExec, Nat.add_assoc]
      · rw [i3, s3]
      · rw [i4, s4]
      · rw [i5, s5]

theorem rebStep_counts (cfg : LoopCfg) (p : RiskParams) (it : RebItem)
    (equity : ℚ) (risk : RiskState) (now : ℚ) (ok : Bool) :
    countMark (rebStep cfg p it equity risk now ok).2
        = countSuccExec (rebStep cfg p it equity risk now ok).2 ∧
    (rebStep cfg p it equity risk now ok).1.daily_count
        = risk.daily_count + countSuccExec (rebStep cfg p it equity risk now ok).2 ∧
    (rebStep cfg p it equity risk now ok).1.stopped = risk.stopped ∧
    (rebStep cfg p it equity risk now ok).1.equity_peak = risk.equity_peak ∧
    (rebStep cfg p it equity risk now ok).1.day_start = risk.day_start := by
  simp only [rebStep]
  split_ifs <;>
    simp [mark_trade, countMark, countSuccExec, isMark, isSuccExec,
      List.countP_cons, List.countP_nil]

theorem rebItems_counts (cfg : LoopCfg) (p : RiskParams)
    (items : List (RebItem × Bool)) (equity : ℚ) :
    ∀ (risk : RiskState) (now : ℚ),
    countMark (rebItems cfg p equity risk now items).2
        = countSuccExec (rebItems cfg p equity risk now items).2 ∧
    (rebItems cfg p equity risk now items).1.daily_count
        = risk.daily_count + countSuccExec (rebItems cfg p equity risk now items).2 := by
  induction items with
  | nil =>
      intro risk now
      simp [rebItems, countMark, countSuccExec]
  | cons c rest ih =>
      intro risk now
      obtain ⟨s1, s2, _, _, _⟩ := rebStep_counts cfg p c.1 equity risk now c.2
      obtain ⟨i1, i2⟩ := ih (rebStep cfg p c.1 equity risk now c.2).1 now
      simp only [rebItems, countMark, countSuccExec, List.countP_append]
      constructor
      · rw [show (rebStep cfg p c.1 equity risk now c.2).2.countP isMark
            = countMark (rebStep cfg p c.1 equity risk now c.2).2 from rfl, s1]
        rw [show (rebItems cfg p equity (rebStep cfg p c.1 equity risk now c.2).1 now rest).2.countP isMark
            = countMark (rebItems cfg p equity (rebStep cfg p c.1 equity risk now c.2).1 now rest).2 from rfl, i1]
        rfl
      · rw [show (rebItems cfg p equity (rebStep cfg p c.1 equity risk now c.2).1 now rest).1.daily_count
            = (rebStep cfg p c.1 equity risk now c.2).1.daily_count
              + countSuccExec (rebItems cfg p equity (rebStep cfg p c.1 equity risk now c.2).1 now rest).2
            from i2, s2]
        simp [countSuccExec, Nat.add_assoc]

theorem reset_idem (st : RiskState) (now : ℚ) :
    reset_if_new_day (reset_if_new_day st now) now = reset_if_new_day st now := by
  unfold reset_if_new_day
  split_ifs with h1 h2 <;> simp_all

theorem check_pretrade_count_after_reset (p : RiskParams) (risk : RiskState)
    (now e : ℚ) :
    (check_pretrade p (reset_if_new_day risk now) now e).2.daily_count
      = (reset_if_new_day risk now).daily_count := by
  by_cases hst : (reset_if_new_day risk now).stopped = true
  · rw [check_pretrade_stopped p _ now e hst]
  · have h := check_pretrade_counts p (reset_if_new_day risk now) now e
      (by simpa using hst)
    rw [h.1, reset_idem]

end Recall

namespace Recall

/-- Claim C3 (confirmed): in both passes the number of `mark_trade`
invocations equals the number of execute calls that returned — exactly
once per successful order, never for risk-rejected or raised ones (a
rejected order emits no execute call at all, so the counts agree);
a raising execute leaves the risk state of that step untouched; the exit
pass never changes the stop flag, peak or day marker; the rebalance pass
counter only moves by the lazy rollover plus its successful orders; and a
raising price fetch leaves the price series unchanged. -/
theorem trade_recording_atomicity :
    (∀ (cfg : LoopCfg) (p : RiskParams) (items : List (ExitItem × Bool))
        (risk : RiskState) (now : ℚ),
      countMark (exitPass cfg p risk now items).2
          = countSuccExec (exitPass cfg p risk now items).2 ∧
      (exitPass cfg p risk now items).1.daily_count
          = risk.daily_count + countSuccExec (exitPass cfg p risk now items).2 ∧
      (exitPass cfg p risk now items).1.stopped = risk.stopped ∧
      (exitPass cfg p risk now items).1.equity_peak = risk.equity_peak ∧
      (exitPass cfg p risk now items).1.day_start = risk.day_start) ∧
    (∀ (cfg : LoopCfg) (p : RiskParams) (it : ExitItem) (risk : RiskState)
        (now : ℚ), (exitStep cfg p it risk now false).1 = risk) ∧
    (∀ (cfg : LoopCfg) (p : RiskParams) (items : List (RebItem × Bool))
        (equity : ℚ) (risk : RiskState) (now : ℚ),
      countMark (rebalancePass cfg p items equity risk now).2
          = countSuccExec (rebalancePass cfg p items equity risk now).2 ∧
      (rebalancePass cfg p items equity risk now).1.daily_count
          = (reset_if_new_day risk now).daily_count
            + countSuccExec (rebalancePass cfg p items equity risk now).2) ∧
    (∀ (cfg : LoopCfg) (p : RiskParams) (it : RebItem) (equity : ℚ)
        (risk : RiskState) (now : ℚ),
      (rebStep cfg p it equity risk now false).1 = risk) ∧
    (∀ ser : PriceSeries PyFloat, pollStep ser none = ser) := by
  have hc : ∀ evs, countSuccExec (TradeEvent.checkPretradeEv :: evs)
      = countSuccExec evs := by
    intro evs
    simp [countSuccExec, List.countP_cons, isSuccExec]
  have hm : ∀ evs, countMark (TradeEvent.checkPretradeEv :: evs)
      = countMark evs := by
    intro evs
    simp [countMark, List.countP_cons, isMark]
  refine ⟨?_, ?_, ?_, ?_, ?_⟩
  · intro cfg p items risk now
    exact exitPass_counts cfg p items risk now
  · intro cfg p it risk now
    simp only [exitStep]
    split_ifs <;> simp_all
  · intro cfg p items equity risk now
    simp only [rebalancePass]
    by_cases hpc : (check_pretrade p (reset_if_new_day risk now) now equity).1.1 = false
    · rw [if_pos hpc]
      refine ⟨by simp [countMark, countSuccExec, isMark, isSuccExec], ?_⟩
      simp only [countSuccExec, List.countP_cons, List.countP_nil]
      simp [isSuccExec, check_pretrade_count_after_reset]
    · rw [if_neg hpc]
      obtain ⟨i1, i2⟩ := rebItems_counts cfg p items equity
        (check_pretrade p (reset_if_new_day risk now) now equity).2 now
      constructor
      · rw [hm, hc, i1]
      · rw [hc]
        show (rebItems cfg p equity
            (check_pretrade p (reset_if_new_day risk now) now equity).2 now items).1.daily_count
          = (reset_if_new_day risk now).daily_count
            + countSuccExec (rebItems cfg p equity
                (check_pretrade p (reset_if_new_day risk now) now equity).2 now items).2
        rw [i2, check_pretrade_count_after_reset]
  · intro cfg p it equity risk now
    simp only [rebStep]
    split_ifs <;> simp_all
  · intro ser
    rfl

end Recall

namespace Recall

theorem exitStep_events_kind (cfg : LoopCfg) (p : RiskParams) (it : ExitItem)
    (risk : RiskState) (now : ℚ) (ok : Bool) (e : TradeEvent)
    (he : e ∈ (exitStep cfg p it risk now ok).2) :
    e ≠ TradeEvent.checkPretradeEv ∧ e ≠ TradeEvent.checkSizeEv ∧
      e ≠ TradeEvent.checkExposureEv := by
  simp only [exitStep] at he
  split_ifs at he <;> simp_all <;> rcases he with rfl | rfl <;> simp

/-- Claim C9, counterexample: a held asset (balance 1 > 0, exposure
2 > 1) with no current signal but no USDC address on its chain is skipped
entirely — no sell order is emitted and nothing is recorded, refuting the
claim's unconditional "emits a sell order and calls mark_trade". -/
theorem exit_bypass_counterexample :
    exitStep ⟨1, 2, 2, 1/200, 3/20⟩ ⟨3, 120, 20, 1/4, 100, 18/100, 1, 7/20⟩
        ⟨1, 2, false, [], false⟩ ⟨0, 1, 0, none, true, []⟩ 0 true
      = (⟨0, 1, 0, none, true, []⟩, []) ∧
    (0 : ℚ) < 1 ∧ (1 : ℚ) < 2 ∧
    (⟨1, 2, false, [], false⟩ : ExitItem).inSignals = false ∧
    (⟨1, 2, false, [], false⟩ : ExitItem).usdcFound = false := by
  refine ⟨?_, by norm_num, by norm_num, rfl, rfl⟩
  simp [exitStep, shouldExit]

/-- Claim C9 as amended: for a held asset past the dust threshold whose
exit condition holds AND for which a USDC address exists on its chain, the
exit pass emits exactly one sell order of size
min(exposure, per_trade_base_usd) and calls mark_trade exactly when the
execute call returns; the emitted events never depend on the risk state
(in particular not on the stopped flag), a raising execute leaves the risk
state untouched, and the exit pass never invokes check_pretrade,
check_trade_size or check_asset_exposure. -/
theorem exit_bypass_amended (cfg : LoopCfg) (p : RiskParams) (it : ExitItem)
    (risk : RiskState) (now : ℚ) (ok : Bool)
    (h1 : 0 < it.bal) (h2 : 1 ≤ it.exposure)
    (h3 : shouldExit cfg it = true) (h4 : it.usdcFound = true) :
    (exitStep cfg p it risk now ok).2
        = TradeEvent.execCall (min it.exposure p.per_trade_base_usd) ok ::
            (if ok then [TradeEvent.markEv] else []) ∧
    (ok = true → (exitStep cfg p it risk now ok).1 = mark_trade risk now) ∧
    (ok = false → (exitStep cfg p it risk now ok).1 = risk) ∧
    (∀ (it' : ExitItem) (r1 r2 : RiskState) (ok' : Bool),
      (exitStep cfg p it' r1 now ok').2 = (exitStep cfg p it' r2 now ok').2) ∧
    (∀ (items : List (ExitItem × Bool)) (r : RiskState) (e : TradeEvent),
      e ∈ (exitPass cfg p r now items).2 →
      e ≠ TradeEvent.checkPretradeEv ∧ e ≠ TradeEvent.checkSizeEv ∧
        e ≠ TradeEvent.checkExposureEv) := by
  have hb : ¬ it.bal ≤ 0 := not_le.mpr h1
  have hx : ¬ it.exposure < 1 := not_lt.mpr h2
  refine ⟨?_, ?_, ?_, ?_, ?_⟩
  · simp only [exitStep, if_neg hb, if_neg hx, if_pos h3, if_pos h4]
    cases ok <;> simp
  · intro hok
    subst hok
    simp only [exitStep, if_neg hb, if_neg hx, if_pos h3, if_pos h4]
    simp
  · intro hok
    subst hok
    simp only [exitStep, if_neg hb, if_neg hx, if_pos h3, if_pos h4]
    simp
  · intro it' r1 r2 ok'
    simp only [exitStep]
    split_ifs <;> rfl
  · intro items
    induction items with
    | nil => intro r e he; simp [exitPass] at he
    | cons c rest ih =>
        intro r e he
        simp only [exitPass, List.mem_append] at he
        rcases he with he | he
        · exact exitStep_events_kind cfg p c.1 r now c.2 e he
        · exact ih _ e he

/-- Witness for C9 (amended): a no-signal asset with USDC available is
sold (size min(2, 100)) and marked even though the risk manager is
stopped. -/
theorem exit_bypass_amended_witness :
    (exitStep ⟨1, 2, 2, 1/200, 3/20⟩ ⟨3, 120, 20, 1/4, 100, 18/100, 1, 7/20⟩
        ⟨1, 2, false, [], true⟩ ⟨0, 1, 0, none, true, []⟩ 0 true).2
      = [TradeEvent.execCall (min (2 : ℚ) 100) true, TradeEvent.markEv] := by
  have h := (exit_bypass_amended ⟨1, 2, 2, 1/200, 3/20⟩
    ⟨3, 120, 20, 1/4, 100, 18/100, 1, 7/20⟩ ⟨1, 2, false, [], true⟩
    ⟨0, 1, 0, none, true, []⟩ 0 true (by norm_num) (by norm_num) (by decide) rfl).1
  simpa using h

end Recall
